import Mathlib

set_option maxHeartbeats 1000000

/-
Verification development for the Alert-Monitor repository
(`src/index.ts`).  The program extracts candidate records from
free-form model output (`extrairJson`), derives a stable identity for
each record (`gerarIdEstavel`), reconciles candidates against a
persistent seen-store inside `main`, and sends a summary e-mail
(`enviarEmailResumo`) only when new records were found.

Shallow-embedding conventions:
* JavaScript strings are modelled as Lean `String`/`List Char`
  (Unicode scalar values; UTF-16 surrogate-pair index arithmetic is
  identical on the BMP repertoire this program manipulates).
* `JSON.parse` is modelled by an executable strict recursive-descent
  parser (`jsonParse`) following the ECMA-404 grammar; numbers are kept
  as their lexemes, and object members are kept in parse order.
* JS falsiness of a possibly-absent string (`!x`) is `x` being absent
  or empty.
* `String.prototype.toLowerCase` and `normalize('NFD')` are modelled
  per character over the repertoire the program meets (ASCII plus the
  Latin accented letters of the monitored Portuguese sources);
  characters outside the table are left unchanged.
-/

namespace AlertMonitor

/-! ## Identity builder (`gerarIdEstavel`, index.ts lines 95-110) -/

/-- Model of JS `toLowerCase` on the program's character repertoire:
ASCII uppercase plus precomposed Latin accented capitals. -/
def jsToLower (c : Char) : Char :=
  if 'A' ≤ c ∧ c ≤ 'Z' then Char.ofNat (c.toNat + 32)
  else if c = 'Á' then 'á' else if c = 'À' then 'à'
  else if c = 'Â' then 'â' else if c = 'Ã' then 'ã'
  else if c = 'Ä' then 'ä' else if c = 'Ç' then 'ç'
  else if c = 'É' then 'é' else if c = 'È' then 'è'
  else if c = 'Ê' then 'ê' else if c = 'Ë' then 'ë'
  else if c = 'Í' then 'í' else if c = 'Ì' then 'ì'
  else if c = 'Î' then 'î' else if c = 'Ï' then 'ï'
  else if c = 'Ñ' then 'ñ' else if c = 'Ó' then 'ó'
  else if c = 'Ò' then 'ò' else if c = 'Ô' then 'ô'
  else if c = 'Õ' then 'õ' else if c = 'Ö' then 'ö'
  else if c = 'Ú' then 'ú' else if c = 'Ù' then 'ù'
  else if c = 'Û' then 'û' else if c = 'Ü' then 'ü'
  else c

/-- Model of Unicode canonical decomposition (`normalize('NFD')`) per
character, over the same repertoire: each precomposed Latin letter
decomposes into its base letter followed by a combining mark. -/
def nfdChar (c : Char) : List Char :=
  if c = 'á' then ['a', '\u0301'] else if c = 'à' then ['a', '\u0300']
  else if c = 'â' then ['a', '\u0302'] else if c = 'ã' then ['a', '\u0303']
  else if c = 'ä' then ['a', '\u0308'] else if c = 'ç' then ['c', '\u0327']
  else if c = 'é' then ['e', '\u0301'] else if c = 'è' then ['e', '\u0300']
  else if c = 'ê' then ['e', '\u0302'] else if c = 'ë' then ['e', '\u0308']
  else if c = 'í' then ['i', '\u0301'] else if c = 'ì' then ['i', '\u0300']
  else if c = 'î' then ['i', '\u0302'] else if c = 'ï' then ['i', '\u0308']
  else if c = 'ñ' then ['n', '\u0303'] else if c = 'ó' then ['o', '\u0301']
  else if c = 'ò' then ['o', '\u0300'] else if c = 'ô' then ['o', '\u0302']
  else if c = 'õ' then ['o', '\u0303'] else if c = 'ö' then ['o', '\u0308']
  else if c = 'ú' then ['u', '\u0301'] else if c = 'ù' then ['u', '\u0300']
  else if c = 'û' then ['u', '\u0302'] else if c = 'ü' then ['u', '\u0308']
  else if c = 'Á' then ['A', '\u0301'] else if c = 'À' then ['A', '\u0300']
  else if c = 'Â' then ['A', '\u0302'] else if c = 'Ã' then ['A', '\u0303']
  else if c = 'Ä' then ['A', '\u0308'] else if c = 'Ç' then ['C', '\u0327']
  else if c = 'É' then ['E', '\u0301'] else if c = 'È' then ['E', '\u0300']
  else if c = 'Ê' then ['E', '\u0302'] else if c = 'Ë' then ['E', '\u0308']
  else if c = 'Í' then ['I', '\u0301'] else if c = 'Ì' then ['I', '\u0300']
  else if c = 'Î' then ['I', '\u0302'] else if c = 'Ï' then ['I', '\u0308']
  else if c = 'Ñ' then ['N', '\u0303'] else if c = 'Ó' then ['O', '\u0301']
  else if c = 'Ò' then ['O', '\u0300'] else if c = 'Ô' then ['O', '\u0302']
  else if c = 'Õ' then ['O', '\u0303'] else if c = 'Ö' then ['O', '\u0308']
  else if c = 'Ú' then ['U', '\u0301'] else if c = 'Ù' then ['U', '\u0300']
  else if c = 'Û' then ['U', '\u0302'] else if c = 'Ü' then ['U', '\u0308']
  else [c]

/-- The regex class `[̀-ͯ]` (combining diacritical marks). -/
def isCombining (c : Char) : Bool :=
  0x300 ≤ c.toNat && c.toNat ≤ 0x36F

/-- The regex class `[a-z0-9]` (kept by the replacement `[^a-z0-9] → ''`). -/
def isLowerAlnum (c : Char) : Bool :=
  ('a' ≤ c && c ≤ 'z') || ('0' ≤ c && c ≤ '9')

/-- `titulo.toLowerCase().normalize('NFD').replace(/[̀-ͯ]/g,'')
.replace(/[^a-z0-9]/g,'')`, on the character list of the title. -/
def tituloLimpoL (l : List Char) : List Char :=
  ((((l.map jsToLower).map nfdChar).flatten).filter
      (fun c => !isCombining c)).filter isLowerAlnum

/-- `tituloLimpo.substring(0, 60)` — the first 60 normalized characters. -/
def slugTitulo (t : String) : List Char :=
  (tituloLimpoL t.data).take 60

/-- `prazo ? prazo.replace(/[^0-9]/g, '') : '0000'` — the only falsy
string is the empty string. -/
def slugPrazo (p : String) : String :=
  if p = "" then "0000" else String.mk (p.data.filter Char.isDigit)

/-- `gerarIdEstavel` (index.ts lines 95-110):
`` `${fonteNome}-${slugTitulo}-${slugPrazo}` ``. -/
def gerarIdEstavel (fonteNome titulo prazo : String) : String :=
  fonteNome ++ "-" ++ String.mk (slugTitulo titulo) ++ "-" ++ slugPrazo prazo

/-! ## JSON values and a model of `JSON.parse` -/

/-- JSON values as produced by `JSON.parse`.  Numbers are kept as their
source lexemes; object members are kept in source order. -/
inductive Json where
  | null : Json
  | bool : Bool → Json
  | num : String → Json
  | str : String → Json
  | arr : List Json → Json
  | obj : List (String × Json) → Json

/-- JSON insignificant whitespace (ECMA-404): space, tab, LF, CR. -/
def jsonWs (c : Char) : Bool :=
  c = ' ' || c = '\t' || c = '\n' || c = '\r'

def skipWs (l : List Char) : List Char :=
  l.dropWhile jsonWs

def hexDigitVal (c : Char) : Option Nat :=
  if '0' ≤ c ∧ c ≤ '9' then some (c.toNat - '0'.toNat)
  else if 'a' ≤ c ∧ c ≤ 'f' then some (c.toNat - 'a'.toNat + 10)
  else if 'A' ≤ c ∧ c ≤ 'F' then some (c.toNat - 'A'.toNat + 10)
  else none

/-- Body of a JSON string literal (after the opening quote), with the
escape sequences of ECMA-404.  `\uXXXX` surrogate pairs are combined;
a lone surrogate becomes U+FFFD (Lean characters are scalar values). -/
def parseStrBody (fuel : Nat) (l : List Char) (acc : List Char) :
    Option (List Char × List Char) :=
  match fuel with
  | 0 => none
  | fuel + 1 =>
    match l with
    | [] => none
    | '"' :: rest => some (acc.reverse, rest)
    | '\\' :: e :: rest =>
      match e with
      | '"' => parseStrBody fuel rest ('"' :: acc)
      | '\\' => parseStrBody fuel rest ('\\' :: acc)
      | '/' => parseStrBody fuel rest ('/' :: acc)
      | 'b' => parseStrBody fuel rest ('\x08' :: acc)
      | 'f' => parseStrBody fuel rest ('\x0c' :: acc)
      | 'n' => parseStrBody fuel rest ('\n' :: acc)
      | 'r' => parseStrBody fuel rest ('\r' :: acc)
      | 't' => parseStrBody fuel rest ('\t' :: acc)
      | 'u' =>
        match rest with
        | c1 :: c2 :: c3 :: c4 :: rest2 =>
          match hexDigitVal c1, hexDigitVal c2, hexDigitVal c3, hexDigitVal c4 with
          | some h1, some h2, some h3, some h4 =>
            let n := ((h1 * 16 + h2) * 16 + h3) * 16 + h4
            if 0xD800 ≤ n ∧ n ≤ 0xDBFF then
              match rest2 with
              | '\\' :: 'u' :: d1 :: d2 :: d3 :: d4 :: rest3 =>
                match hexDigitVal d1, hexDigitVal d2, hexDigitVal d3, hexDigitVal d4 with
                | some g1, some g2, some g3, some g4 =>
                  let m := ((g1 * 16 + g2) * 16 + g3) * 16 + g4
                  if 0xDC00 ≤ m ∧ m ≤ 0xDFFF then
                    parseStrBody fuel rest3
                      (Char.ofNat (0x10000 + (n - 0xD800) * 0x400 + (m - 0xDC00)) :: acc)
                  else parseStrBody fuel rest2 ('�' :: acc)
                | _, _, _, _ => parseStrBody fuel rest2 ('�' :: acc)
              | _ => parseStrBody fuel rest2 ('�' :: acc)
            else if 0xDC00 ≤ n ∧ n ≤ 0xDFFF then
              parseStrBody fuel rest2 ('�' :: acc)
            else parseStrBody fuel rest2 (Char.ofNat n :: acc)
          | _, _, _, _ => none
        | _ => none
      | _ => none
    | c :: rest =>
      if c.toNat < 0x20 then none
      else parseStrBody fuel rest (c :: acc)

/-- JSON number lexeme: `-? (0 | [1-9][0-9]*) (. [0-9]+)? ([eE][+-]?[0-9]+)?`.
Returns the lexeme and the remaining input. -/
def parseNumLex (l : List Char) : Option (List Char × List Char) :=
  let (neg, l1) : List Char × List Char :=
    match l with
    | '-' :: r => (['-'], r)
    | _ => ([], l)
  match l1 with
  | '0' :: r =>
    let intPart : List Char := ['0']
    let (frac, r2) : List Char × List Char :=
      match r with
      | '.' :: r3 =>
        let ds := r3.takeWhile Char.isDigit
        if ds = [] then (['?'], r) else ('.' :: ds, r3.dropWhile Char.isDigit)
      | _ => ([], r)
    if frac = ['?'] then none
    else
      let (ex, r4) : List Char × List Char :=
        match r2 with
        | 'e' :: r5 =>
          let (sgn, r6) : List Char × List Char :=
            match r5 with
            | '+' :: r7 => (['+'], r7)
            | '-' :: r7 => (['-'], r7)
            | _ => ([], r5)
          let ds := r6.takeWhile Char.isDigit
          if ds = [] then (['?'], r2) else ('e' :: sgn ++ ds, r6.dropWhile Char.isDigit)
        | 'E' :: r5 =>
          let (sgn, r6) : List Char × List Char :=
            match r5 with
            | '+' :: r7 => (['+'], r7)
            | '-' :: r7 => (['-'], r7)
            | _ => ([], r5)
          let ds := r6.takeWhile Char.isDigit
          if ds = [] then (['?'], r2) else ('E' :: sgn ++ ds, r6.dropWhile Char.isDigit)
        | _ => ([], r2)
      if ex = ['?'] then none
      else some (neg ++ intPart ++ frac ++ ex, r4)
  | c :: _ =>
    if '1' ≤ c ∧ c ≤ '9' then
      let intPart := l1.takeWhile Char.isDigit
      let r := l1.dropWhile Char.isDigit
      let (frac, r2) : List Char × List Char :=
        match r with
        | '.' :: r3 =>
          let ds := r3.takeWhile Char.isDigit
          if ds = [] then (['?'], r) else ('.' :: ds, r3.dropWhile Char.isDigit)
        | _ => ([], r)
      if frac = ['?'] then none
      else
        let (ex, r4) : List Char × List Char :=
          match r2 with
          | 'e' :: r5 =>
            let (sgn, r6) : List Char × List Char :=
              match r5 with
              | '+' :: r7 => (['+'], r7)
              | '-' :: r7 => (['-'], r7)
              | _ => ([], r5)
            let ds := r6.takeWhile Char.isDigit
            if ds = [] then (['?'], r2) else ('e' :: sgn ++ ds, r6.dropWhile Char.isDigit)
          | 'E' :: r5 =>
            let (sgn, r6) : List Char × List Char :=
              match r5 with
              | '+' :: r7 => (['+'], r7)
              | '-' :: r7 => (['-'], r7)
              | _ => ([], r5)
            let ds := r6.takeWhile Char.isDigit
            if ds = [] then (['?'], r2) else ('E' :: sgn ++ ds, r6.dropWhile Char.isDigit)
          | _ => ([], r2)
        if ex = ['?'] then none
        else some (neg ++ intPart ++ frac ++ ex, r4)
    else none
  | [] => none

mutual

/-- One JSON value, leading whitespace allowed. -/
def parseValue (fuel : Nat) (l : List Char) : Option (Json × List Char) :=
  match fuel with
  | 0 => none
  | fuel + 1 =>
    match skipWs l with
    | 'n' :: 'u' :: 'l' :: 'l' :: r => some (Json.null, r)
    | 't' :: 'r' :: 'u' :: 'e' :: r => some (Json.bool true, r)
    | 'f' :: 'a' :: 'l' :: 's' :: 'e' :: r => some (Json.bool false, r)
    | '"' :: r =>
      match parseStrBody (r.length + 1) r [] with
      | some (cs, r2) => some (Json.str (String.mk cs), r2)
      | none => none
    | '[' :: r =>
      match skipWs r with
      | ']' :: r2 => some (Json.arr [], r2)
      | _ => parseElems fuel r []
    | '{' :: r =>
      match skipWs r with
      | '}' :: r2 => some (Json.obj [], r2)
      | _ => parseMembers fuel r []
    | other =>
      match parseNumLex other with
      | some (lex, r) => some (Json.num (String.mk lex), r)
      | none => none

/-- Array elements after `[` (at least one element pending). -/
def parseElems (fuel : Nat) (l : List Char) (acc : List Json) :
    Option (Json × List Char) :=
  match fuel with
  | 0 => none
  | fuel + 1 =>
    match parseValue fuel l with
    | none => none
    | some (v, r) =>
      match skipWs r with
      | ',' :: r2 => parseElems fuel r2 (v :: acc)
      | ']' :: r2 => some (Json.arr (v :: acc).reverse, r2)
      | _ => none

/-- Object members after `{` (at least one member pending). -/
def parseMembers (fuel : Nat) (l : List Char) (acc : List (String × Json)) :
    Option (Json × List Char) :=
  match fuel with
  | 0 => none
  | fuel + 1 =>
    match skipWs l with
    | '"' :: r =>
      match parseStrBody (r.length + 1) r [] with
      | none => none
      | some (ks, r2) =>
        match skipWs r2 with
        | ':' :: r3 =>
          match parseValue fuel r3 with
          | none => none
          | some (v, r4) =>
            match skipWs r4 with
            | ',' :: r5 => parseMembers fuel r5 ((String.mk ks, v) :: acc)
            | '}' :: r5 => some (Json.obj ((String.mk ks, v) :: acc).reverse, r5)
            | _ => none
        | _ => none
    | _ => none

end

/-- Model of `JSON.parse`: one JSON text, whitespace allowed around it,
all input consumed. -/
def jsonParse (s : String) : Option Json :=
  match parseValue (2 * s.length + 8) s.data with
  | some (v, r) => if skipWs r = [] then some v else none
  | none => none

/-! ## Extraction (`extrairJson`, index.ts lines 81-93) -/

/-- The whitespace set trimmed by JS `String.prototype.trim`. -/
def jsWsTrim (c : Char) : Bool :=
  c = ' ' || c = '\t' || c = '\n' || c = '\r' || c = '\x0b' || c = '\x0c' ||
  c = '\u00a0' || c = '\ufeff' || c = '\u2028' || c = '\u2029'

def trimLeft (l : List Char) : List Char := l.dropWhile jsWsTrim

def trimRight (l : List Char) : List Char :=
  (l.reverse.dropWhile jsWsTrim).reverse

/-- JS `trim()` on a character list. -/
def jsTrim (l : List Char) : List Char := trimRight (trimLeft l)

/-- Scanner for `removeAll`: when `skip = s + 1`, the current character
is still inside a match being removed. -/
def removeAllAux (pat : List Char) (skip : Nat) : List Char → List Char
  | [] => []
  | c :: rest =>
    match skip with
    | s + 1 => removeAllAux pat s rest
    | 0 =>
      if pat ≠ [] ∧ pat.isPrefixOf (c :: rest) then
        removeAllAux pat (pat.length - 1) rest
      else
        c :: removeAllAux pat 0 rest

/-- JS `String.prototype.replace(/pat/g, '')` for a literal pattern:
left-to-right, non-overlapping removal, continuing after each match. -/
def removeAll (pat : List Char) (l : List Char) : List Char :=
  removeAllAux pat 0 l

/-- JS `indexOf` (first index of a character), `none` for `-1`. -/
def firstIdx (c : Char) : List Char → Option Nat
  | [] => none
  | x :: xs => if x = c then some 0 else (firstIdx c xs).map (· + 1)

/-- JS `lastIndexOf` (last index of a character), `none` for `-1`. -/
def lastIdx (c : Char) : List Char → Option Nat
  | [] => none
  | x :: xs =>
    match lastIdx c xs with
    | some i => some (i + 1)
    | none => if x = c then some 0 else none

/-- JS `String.prototype.substring`: indices clamped to the length and
swapped when `a > b`. -/
def jsSubstring (l : List Char) (a b : Nat) : List Char :=
  let a2 := min a l.length
  let b2 := min b l.length
  (l.drop (min a2 b2)).take (max a2 b2 - min a2 b2)

/-- The cleaned text of `extrairJson` (index.ts lines 83):
`text.replace(/```json/g, '').replace(/```/g, '').trim()`. -/
def limpoDe (text : String) : List Char :=
  jsTrim (removeAll "```".data (removeAll "```json".data text.data))

/-- The slice taken by `extrairJson` (index.ts lines 84-87): from the
first `[` to the last `]` inclusive; `none` when either is absent. -/
def fatiaDe (l : List Char) : Option (List Char) :=
  match firstIdx '[' l, lastIdx ']' l with
  | some inicio, some fim => some (jsSubstring l inicio (fim + 1))
  | _, _ => none

/-- `extrairJson` (index.ts lines 81-93): strip ```` ```json ```` and
```` ``` ```` markers, trim, slice from the first `[` to the last `]`,
then `JSON.parse`; any failure degrades to the empty array literal. -/
def extrairJson (text : String) : Json :=
  match fatiaDe (limpoDe text) with
  | some fatia =>
    match jsonParse (String.mk fatia) with
    | some v => v
    | none => Json.arr []
  | none => Json.arr []

/-! ## Reconciliation loop (`main`, index.ts lines 234-259) -/

/-- A monitored source (`FONTE_IPEA` etc.). -/
structure Fonte where
  nome : String
  url : String
  cor : String
deriving DecidableEq

/-- One extracted item as consumed by the loop: the `titulo` and
`prazo` fields, each possibly absent.  JS falsiness of `item.titulo`
is absence or emptiness. -/
structure Candidato where
  titulo : Option String
  prazo : Option String
deriving DecidableEq

/-- A row of the `oportunidades` table. -/
structure Registro where
  id : String
  projeto : String
  prazo : Option String
  fonte : String
deriving DecidableEq

/-- An entry of `novasOportunidades`. -/
structure Oportunidade where
  id_unico : String
  titulo : String
  prazo : Option String
  fonte_nome : String
  fonte_url : String
  cor : String
deriving DecidableEq

/-- JS falsiness of a possibly-absent string (`!x`). -/
def jsFalsyStr (o : Option String) : Bool :=
  match o with
  | none => true
  | some s => s = ""

/-- The body of the inner loop of `main` for one item (index.ts lines
235-258): skip falsy `titulo`; compute `gerarIdEstavel` (an absent
`prazo` is falsy inside `gerarIdEstavel`, exactly like the empty
string); check the store by id; if absent, insert the row and append
to `novasOportunidades`. -/
def passo (f : Fonte) (acc : List Registro × List Oportunidade)
    (item : Candidato) : List Registro × List Oportunidade :=
  match item.titulo with
  | none => acc
  | some t =>
    if t = "" then acc
    else
      let idUnico := gerarIdEstavel f.nome t (item.prazo.getD "")
      if acc.1.any (fun r => r.id = idUnico) then acc
      else
        (acc.1 ++ [⟨idUnico, t, item.prazo, f.nome⟩],
         acc.2 ++ [⟨idUnico, t, item.prazo, f.nome, f.url, f.cor⟩])

/-- The double loop of `main` over `todosResultados` (index.ts lines
234-259), starting from the persisted store `db` and an empty
`novasOportunidades`. -/
def processarTodos (grupos : List (Fonte × List Candidato))
    (db : List Registro) : List Registro × List Oportunidade :=
  grupos.foldl (fun acc g => g.2.foldl (passo g.1) acc) (db, [])

/-! ## Notification (`enviarEmailResumo` and `main`, index.ts 135-171, 261-266) -/

/-- The e-mail environment variables read by `enviarEmailResumo`. -/
structure EmailEnv where
  emailUser : Option String
  emailTo : Option String

/-- The message handed to `transporter.sendMail`. -/
structure Mail where
  de : String
  para : String
  assunto : String
  html : String
deriving DecidableEq

/-- JS template interpolation of a possibly-absent string. -/
def renderOptStr (o : Option String) : String :=
  match o with
  | none => "undefined"
  | some s => s

/-- One `<li>` of the summary, as composed in `enviarEmailResumo`. -/
def itemHtml (op : Oportunidade) : String :=
  "<li><div style=\"background-color: " ++ op.cor ++ ";\">" ++
  op.fonte_nome ++ "</div><div>" ++ op.titulo ++ "</div><div>📅 " ++
  renderOptStr op.prazo ++ "</div><div><a href=\"" ++ op.fonte_url ++
  "\" style=\"color: " ++ op.cor ++ ";\">➜ Ver na fonte</a></div></li>"

/-- `enviarEmailResumo` (index.ts lines 135-171): returns the message
handed to the channel, or `none` when the e-mail environment is not
configured (the guard on line 136). -/
def enviarEmailResumo (env : EmailEnv) (oportunidades : List Oportunidade) :
    Option Mail :=
  if jsFalsyStr env.emailUser || jsFalsyStr env.emailTo then none
  else
    some
      { de := "\"Monitor de Editais\" <" ++ (env.emailUser.getD "") ++ ">"
        para := env.emailTo.getD ""
        assunto := "🔔 " ++ toString oportunidades.length ++ " Novos Itens Detectados"
        html := "<div><h2>Novas Oportunidades</h2><ul>" ++
          String.join (oportunidades.map itemHtml) ++
          "</ul><p>Monitoramento via Gemini Flash Lite.</p></div>" }

/-- The tail of `main` (index.ts lines 261-266): `enviarEmailResumo` is
invoked only when `novasOportunidades.length > 0`; the result is the
message handed to the outbound channel, if any. -/
def mainEnvio (env : EmailEnv) (novas : List Oportunidade) : Option Mail :=
  if novas.length > 0 then enviarEmailResumo env novas else none

/-! ## Derived notions about the reconciliation loop -/

/-- The identity the loop computes for an item (an absent `prazo` is
falsy, exactly like the empty string). -/
def idDoItem (f : Fonte) (item : Candidato) : String :=
  gerarIdEstavel f.nome (item.titulo.getD "") (item.prazo.getD "")

/-- The table row inserted for a newly detected item. -/
def registroDe (f : Fonte) (item : Candidato) : Registro :=
  ⟨idDoItem f item, item.titulo.getD "", item.prazo, f.nome⟩

/-- The `novasOportunidades` entry pushed for a newly detected item. -/
def oportunidadeDe (f : Fonte) (item : Candidato) : Oportunidade :=
  ⟨idDoItem f item, item.titulo.getD "", item.prazo, f.nome, f.url, f.cor⟩

/-- `passo` uncurried over a source-item pair. -/
def passoPar (acc : List Registro × List Oportunidade)
    (p : Fonte × Candidato) : List Registro × List Oportunidade :=
  passo p.1 acc p.2

/-- The source-item pairs visited by the double loop, in visit order. -/
def pares (grupos : List (Fonte × List Candidato)) : List (Fonte × Candidato) :=
  grupos.flatMap (fun g => g.2.map (fun it => (g.1, it)))

/-- The valid candidates (truthy `titulo`) among the visited pairs. -/
def itensValidos (grupos : List (Fonte × List Candidato)) :
    List (Fonte × Candidato) :=
  (pares grupos).filter (fun p => !jsFalsyStr p.2.titulo)

/-! ## Helper lemmas -/

theorem string_mk_data (l : List Char) : (String.mk l).data = l := rfl

theorem string_ext {a b : String} (h : a.data = b.data) : a = b :=
  congrArg String.mk h

theorem tituloLimpoL_append (l₁ l₂ : List Char) :
    tituloLimpoL (l₁ ++ l₂) = tituloLimpoL l₁ ++ tituloLimpoL l₂ := by
  simp [tituloLimpoL]

/-- The character list of a built identity, fully right-associated. -/
theorem gerarIdEstavel_data (s t d : String) :
    (gerarIdEstavel s t d).data =
      s.data ++ '-' :: (slugTitulo t ++ '-' :: (slugPrazo d).data) := by
  simp [gerarIdEstavel, String.data_append, string_mk_data, List.append_assoc]

/-! ## Claims C3, C4, C8, C10: identity builder -/

/-- Claim C3: identity is invariant under normalization of the title —
replacing a title character by one with the same normalization (case
variants, accented versus plain letters), or inserting a character
whose normalization is empty (whitespace, punctuation, combining
marks), leaves the identity unchanged; in particular
`buildIdentity("X","Edital 01/2025","15/12/2025")` equals
`buildIdentity("X","  EDITAL 01/2025!! ","15-12-2025")`. -/
theorem claim_C3 :
    gerarIdEstavel "X" "Edital 01/2025" "15/12/2025" =
      gerarIdEstavel "X" "  EDITAL 01/2025!! " "15-12-2025" ∧
    (∀ (s d u v : String) (c c' : Char), tituloLimpoL [c] = tituloLimpoL [c'] →
      gerarIdEstavel s (u ++ String.mk [c] ++ v) d =
        gerarIdEstavel s (u ++ String.mk [c'] ++ v) d) ∧
    (∀ (s d u v : String) (c : Char), tituloLimpoL [c] = [] →
      gerarIdEstavel s (u ++ String.mk [c] ++ v) d =
        gerarIdEstavel s (u ++ v) d) := by
  refine ⟨by decide, ?_, ?_⟩
  · intro s d u v c c' h
    apply string_ext
    rw [gerarIdEstavel_data, gerarIdEstavel_data]
    have hslug : slugTitulo (u ++ String.mk [c] ++ v) =
        slugTitulo (u ++ String.mk [c'] ++ v) := by
      unfold slugTitulo
      rw [String.data_append, String.data_append, String.data_append,
        String.data_append, string_mk_data, string_mk_data,
        tituloLimpoL_append, tituloLimpoL_append, tituloLimpoL_append,
        tituloLimpoL_append, h]
    rw [hslug]
  · intro s d u v c h
    apply string_ext
    rw [gerarIdEstavel_data, gerarIdEstavel_data]
    have hslug : slugTitulo (u ++ String.mk [c] ++ v) = slugTitulo (u ++ v) := by
      unfold slugTitulo
      rw [String.data_append, String.data_append, String.data_append,
        string_mk_data, tituloLimpoL_append, tituloLimpoL_append,
        tituloLimpoL_append, h]
      simp
    rw [hslug]

/-- Witness for C3 at concrete inputs: an accent substitution and a
whitespace insertion. -/
theorem claim_C3_witness :
    gerarIdEstavel "X" ("caf" ++ String.mk ['é'] ++ "") "1" =
      gerarIdEstavel "X" ("caf" ++ String.mk ['e'] ++ "") "1" ∧
    gerarIdEstavel "X" ("ab" ++ String.mk [' '] ++ "cd") "1" =
      gerarIdEstavel "X" ("ab" ++ "cd") "1" :=
  ⟨claim_C3.2.1 "X" "1" "caf" "" 'é' 'e' (by decide),
   claim_C3.2.2 "X" "1" "ab" "cd" ' ' (by decide)⟩

/-- Claim C4: distinctness of identities — different source names give
different identities (title and deadline fixed); different first-60
normalized-title fingerprints give different identities (source and
deadline fixed); and equal fingerprints give equal identities. -/
theorem claim_C4 :
    (∀ (t d s₁ s₂ : String), s₁ ≠ s₂ →
      gerarIdEstavel s₁ t d ≠ gerarIdEstavel s₂ t d) ∧
    (∀ (s d t₁ t₂ : String), slugTitulo t₁ ≠ slugTitulo t₂ →
      gerarIdEstavel s t₁ d ≠ gerarIdEstavel s t₂ d) ∧
    (∀ (s d t₁ t₂ : String), slugTitulo t₁ = slugTitulo t₂ →
      gerarIdEstavel s t₁ d = gerarIdEstavel s t₂ d) := by
  refine ⟨?_, ?_, ?_⟩
  · intro t d s₁ s₂ hne heq
    apply hne
    apply string_ext
    have h := congrArg String.data heq
    rw [gerarIdEstavel_data, gerarIdEstavel_data] at h
    exact List.append_cancel_right h
  · intro s d t₁ t₂ hne heq
    apply hne
    have h := congrArg String.data heq
    rw [gerarIdEstavel_data, gerarIdEstavel_data] at h
    have h2 := List.append_cancel_left h
    have h3 : slugTitulo t₁ ++ '-' :: (slugPrazo d).data =
        slugTitulo t₂ ++ '-' :: (slugPrazo d).data := by
      injection h2
    exact List.append_cancel_right h3
  · intro s d t₁ t₂ h
    apply string_ext
    rw [gerarIdEstavel_data, gerarIdEstavel_data, h]

/-- Witness for C4 at concrete inputs. -/
theorem claim_C4_witness :
    gerarIdEstavel "IPEA" "t" "1" ≠ gerarIdEstavel "FNP" "t" "1" ∧
    gerarIdEstavel "X" "abc" "1" ≠ gerarIdEstavel "X" "abd" "1" ∧
    gerarIdEstavel "X" "abc!" "1" = gerarIdEstavel "X" "ABC" "1" :=
  ⟨claim_C4.1 "t" "1" "IPEA" "FNP" (by decide),
   claim_C4.2.1 "X" "1" "abc" "abd" (by decide),
   claim_C4.2.2 "X" "1" "abc!" "ABC" (by decide)⟩

/-- Claim C8: the deadline component of the identity keeps exactly the
digit characters of a non-empty deadline, and an empty deadline is
replaced by the placeholder `"0000"`, so a record with a missing date
still receives a defined identity. -/
theorem claim_C8 :
    (∀ (s t d : String), d ≠ "" →
      gerarIdEstavel s t d =
        s ++ "-" ++ String.mk (slugTitulo t) ++ "-" ++
          String.mk (d.data.filter Char.isDigit)) ∧
    (∀ (s t : String),
      gerarIdEstavel s t "" =
        s ++ "-" ++ String.mk (slugTitulo t) ++ "-" ++ "0000") := by
  constructor
  · intro s t d hd
    simp [gerarIdEstavel, slugPrazo, hd]
  · intro s t
    simp [gerarIdEstavel, slugPrazo]

/-- Witness for C8 at a concrete non-empty deadline. -/
theorem claim_C8_witness :
    gerarIdEstavel "X" "t" "15/12/2025" =
      "X" ++ "-" ++ String.mk (slugTitulo "t") ++ "-" ++
        String.mk ("15/12/2025".data.filter Char.isDigit) :=
  claim_C8.1 "X" "t" "15/12/2025" (by decide)

/-- Claim C10: two non-empty deadlines with the same digit subsequence
yield the same identity (source and title fixed); a non-empty deadline
with no digits normalizes to the empty component, which differs from
the `"0000"` component of an empty deadline. -/
theorem claim_C10 :
    (∀ (s t d₁ d₂ : String), d₁ ≠ "" → d₂ ≠ "" →
      d₁.data.filter Char.isDigit = d₂.data.filter Char.isDigit →
      gerarIdEstavel s t d₁ = gerarIdEstavel s t d₂) ∧
    (∀ (s t d : String), d ≠ "" → d.data.filter Char.isDigit = [] →
      slugPrazo d = "" ∧ gerarIdEstavel s t d ≠ gerarIdEstavel s t "") := by
  constructor
  · intro s t d₁ d₂ h₁ h₂ hdig
    apply string_ext
    rw [gerarIdEstavel_data, gerarIdEstavel_data]
    simp [slugPrazo, h₁, h₂, hdig]
  · intro s t d hne hdig
    have hp : slugPrazo d = "" := by simp [slugPrazo, hne, hdig]
    refine ⟨hp, ?_⟩
    intro heq
    have h := congrArg (fun x => x.data.length) heq
    simp only [gerarIdEstavel_data, hp] at h
    simp at h
    exact absurd h (by decide)

/-- Witness for C10: separator variants of one date agree, and a
digit-free non-empty deadline differs from the empty one. -/
theorem claim_C10_witness :
    gerarIdEstavel "X" "t" "15/12/2025" = gerarIdEstavel "X" "t" "15-12-2025" ∧
    (slugPrazo "sem data" = "" ∧
     gerarIdEstavel "X" "t" "sem data" ≠ gerarIdEstavel "X" "t" "") :=
  ⟨claim_C10.1 "X" "t" "15/12/2025" "15-12-2025" (by decide) (by decide)
      (by decide),
   claim_C10.2 "X" "t" "sem data" (by decide) (by decide)⟩

/-! ## Claims C1, C2, C7, C9: reconciliation and notification -/


theorem passo_falsy (f : Fonte) (acc : List Registro × List Oportunidade)
    (item : Candidato) (h : jsFalsyStr item.titulo = true) :
    passo f acc item = acc := by
  unfold passo jsFalsyStr at *
  match hm : item.titulo with
  | none => simp [hm]
  | some t =>
    rw [hm] at h
    simp at h
    simp [hm, h]

theorem passo_valido (f : Fonte) (acc : List Registro × List Oportunidade)
    (item : Candidato) (t : String) (hm : item.titulo = some t) (hne : t ≠ "") :
    passo f acc item =
      if acc.1.any (fun r => r.id = idDoItem f item) then acc
      else (acc.1 ++ [registroDe f item], acc.2 ++ [oportunidadeDe f item]) := by
  simp [passo, idDoItem, registroDe, oportunidadeDe, hm, hne]

/-- A valid item exposes its title. -/
theorem valido_titulo {item : Candidato} (hv : jsFalsyStr item.titulo = false) :
    ∃ t, item.titulo = some t ∧ t ≠ "" := by
  unfold jsFalsyStr at hv
  match hm : item.titulo with
  | none => rw [hm] at hv; simp at hv
  | some t =>
    rw [hm] at hv
    simp at hv
    exact ⟨t, rfl, hv⟩

theorem processarTodos_eq_pares (grupos : List (Fonte × List Candidato))
    (db : List Registro) :
    processarTodos grupos db = (pares grupos).foldl passoPar (db, []) := by
  unfold processarTodos pares
  generalize (db, ([] : List Oportunidade)) = acc
  induction grupos generalizing acc with
  | nil => simp
  | cons g gs ih =>
    simp only [List.foldl_cons, List.flatMap_cons, List.foldl_append, ih, List.foldl_map]
    rfl

/-- One step either leaves the state unchanged or appends the row and
batch entry of a valid, store-fresh item. -/
theorem passoPar_cases (acc : List Registro × List Oportunidade)
    (p : Fonte × Candidato) :
    passoPar acc p = acc ∨
    (jsFalsyStr p.2.titulo = false ∧
     idDoItem p.1 p.2 ∉ acc.1.map Registro.id ∧
     passoPar acc p =
       (acc.1 ++ [registroDe p.1 p.2], acc.2 ++ [oportunidadeDe p.1 p.2])) := by
  by_cases hv : jsFalsyStr p.2.titulo
  · exact Or.inl (passo_falsy _ _ _ hv)
  · have hv' : jsFalsyStr p.2.titulo = false := by simpa using hv
    obtain ⟨t, hm, hne⟩ := valido_titulo hv'
    unfold passoPar
    rw [passo_valido p.1 acc p.2 t hm hne]
    by_cases hany : acc.1.any (fun r => r.id = idDoItem p.1 p.2)
    · exact Or.inl (if_pos hany)
    · refine Or.inr ⟨hv', ?_, if_neg hany⟩
      simp only [List.any_eq_true, decide_eq_true_eq] at hany
      simp only [List.mem_map]
      rintro ⟨r, hr, hid⟩
      exact hany ⟨r, hr, hid⟩

/-- The store only grows along one step. -/
theorem passoPar_store_mono (acc : List Registro × List Oportunidade)
    (p : Fonte × Candidato) (s : String) (h : s ∈ acc.1.map Registro.id) :
    s ∈ (passoPar acc p).1.map Registro.id := by
  rcases passoPar_cases acc p with hc | ⟨_, _, hc⟩
  · rw [hc]; exact h
  · rw [hc, List.map_append]
    exact List.mem_append_left _ h

/-- The store only grows along the fold. -/
theorem foldl_passoPar_store_mono (ps : List (Fonte × Candidato))
    (acc : List Registro × List Oportunidade) (s : String)
    (h : s ∈ acc.1.map Registro.id) :
    s ∈ (ps.foldl passoPar acc).1.map Registro.id := by
  induction ps generalizing acc with
  | nil => exact h
  | cons p ps ih => exact ih _ (passoPar_store_mono acc p s h)

/-- After one step on a valid item, its identity is in the store. -/
theorem passoPar_id_in_store (acc : List Registro × List Oportunidade)
    (p : Fonte × Candidato) (hv : jsFalsyStr p.2.titulo = false) :
    idDoItem p.1 p.2 ∈ (passoPar acc p).1.map Registro.id := by
  obtain ⟨t, hm, hne⟩ := valido_titulo hv
  unfold passoPar
  rw [passo_valido p.1 acc p.2 t hm hne]
  by_cases hany : acc.1.any (fun r => r.id = idDoItem p.1 p.2)
  · rw [if_pos hany]
    simp only [List.any_eq_true, decide_eq_true_eq] at hany
    rcases hany with ⟨r, hr, hid⟩
    exact List.mem_map.mpr ⟨r, hr, hid⟩
  · rw [if_neg hany, List.map_append]
    apply List.mem_append_right
    simp [registroDe]

/-- After the fold, the identity of every valid visited item is in the
store. -/
theorem foldl_passoPar_ids_in_store (ps : List (Fonte × Candidato))
    (acc : List Registro × List Oportunidade) (p : Fonte × Candidato)
    (hp : p ∈ ps) (hv : jsFalsyStr p.2.titulo = false) :
    idDoItem p.1 p.2 ∈ (ps.foldl passoPar acc).1.map Registro.id := by
  induction ps generalizing acc with
  | nil => cases hp
  | cons q qs ih =>
    rcases List.mem_cons.mp hp with hpq | hpq
    · subst hpq
      rw [List.foldl_cons]
      exact foldl_passoPar_store_mono qs _ _ (passoPar_id_in_store acc _ hv)
    · exact ih _ hpq

/-- If every valid item of `ps` already has its identity in the store,
the fold is a no-op. -/
theorem foldl_passoPar_noop (ps : List (Fonte × Candidato))
    (acc : List Registro × List Oportunidade)
    (h : ∀ p ∈ ps, jsFalsyStr p.2.titulo = false →
      idDoItem p.1 p.2 ∈ acc.1.map Registro.id) :
    ps.foldl passoPar acc = acc := by
  induction ps generalizing acc with
  | nil => rfl
  | cons p ps ih =>
    have hstep : passoPar acc p = acc := by
      by_cases hv : jsFalsyStr p.2.titulo
      · exact passo_falsy _ _ _ hv
      · have hv' : jsFalsyStr p.2.titulo = false := by simpa using hv
        obtain ⟨t, hm, hne⟩ := valido_titulo hv'
        unfold passoPar
        rw [passo_valido p.1 acc p.2 t hm hne]
        have hmem := h p (by simp) hv'
        have hany : acc.1.any (fun r => r.id = idDoItem p.1 p.2) = true := by
          simp only [List.mem_map] at hmem
          rcases hmem with ⟨r, hr, hid⟩
          simp only [List.any_eq_true, decide_eq_true_eq]
          exact ⟨r, hr, hid⟩
        simp [hany]
    rw [List.foldl_cons, hstep]
    exact ih acc (fun q hq hqv => h q (by simp [hq]) hqv)

/-- When the valid identities are mutually distinct and fresh for the
store, the fold appends exactly one row and one batch entry per valid
item, in order. -/
theorem foldl_passoPar_fresh (ps : List (Fonte × Candidato)) :
    ∀ (acc : List Registro × List Oportunidade),
    ((ps.filter (fun p => !jsFalsyStr p.2.titulo)).map
        (fun p => idDoItem p.1 p.2)).Nodup →
    (∀ p ∈ ps, jsFalsyStr p.2.titulo = false →
      idDoItem p.1 p.2 ∉ acc.1.map Registro.id) →
    ps.foldl passoPar acc =
      (acc.1 ++ (ps.filter (fun p => !jsFalsyStr p.2.titulo)).map
          (fun p => registroDe p.1 p.2),
       acc.2 ++ (ps.filter (fun p => !jsFalsyStr p.2.titulo)).map
          (fun p => oportunidadeDe p.1 p.2)) := by
  induction ps with
  | nil => intro acc _ _; simp
  | cons p ps ih =>
    intro acc hnd hfresh
    by_cases hv : jsFalsyStr p.2.titulo
    · rw [List.foldl_cons, show passoPar acc p = passo p.1 acc p.2 from rfl,
        passo_falsy _ _ _ hv]
      rw [ih acc (by simpa [List.filter_cons, hv] using hnd)
        (fun q hq hqv => hfresh q (by simp [hq]) hqv)]
      simp [List.filter_cons, hv]
    · have hv' : jsFalsyStr p.2.titulo = false := by simpa using hv
      obtain ⟨t, hm, hne⟩ := valido_titulo hv'
      have hfp := hfresh p (by simp) hv'
      have hany : acc.1.any (fun r => r.id = idDoItem p.1 p.2) = false := by
        simp only [List.mem_map] at hfp
        simp only [List.any_eq_false, decide_eq_true_eq]
        intro r hr hid
        exact hfp ⟨r, hr, hid⟩
      rw [List.foldl_cons, show passoPar acc p = passo p.1 acc p.2 from rfl,
        passo_valido p.1 acc p.2 t hm hne, if_neg (by simp [hany])]
      have hfc : (p :: ps).filter (fun q => !jsFalsyStr q.2.titulo) =
          p :: ps.filter (fun q => !jsFalsyStr q.2.titulo) := by
        simp [List.filter_cons, hv']
      rw [hfc, List.map_cons] at hnd
      have hhead := (List.nodup_cons.mp hnd).1
      have htail := (List.nodup_cons.mp hnd).2
      rw [ih (acc.1 ++ [registroDe p.1 p.2], acc.2 ++ [oportunidadeDe p.1 p.2])
        htail ?_]
      · rw [hfc]
        simp [List.append_assoc]
      · intro q hq hqv
        simp only [List.map_append, List.mem_append]
        push_neg
        refine ⟨hfresh q (by simp [hq]) hqv, ?_⟩
        show idDoItem q.1 q.2 ∉ [registroDe p.1 p.2].map Registro.id
        simp only [List.map_cons, List.map_nil, List.mem_singleton]
        show idDoItem q.1 q.2 ≠ idDoItem p.1 p.2
        intro hqp
        apply hhead
        rw [← hqp]
        exact List.mem_map.mpr
          ⟨q, List.mem_filter.mpr ⟨hq, by simp [hqv]⟩, rfl⟩



/-- The lockstep invariant of the loop: the store is the initial ids
followed by the batch ids, without duplicates. -/
theorem foldl_passoPar_lockstep (ps : List (Fonte × Candidato)) :
    ∀ (acc : List Registro × List Oportunidade) (dbIds : List String),
    acc.1.map Registro.id = dbIds ++ acc.2.map Oportunidade.id_unico →
    (acc.1.map Registro.id).Nodup →
    ((ps.foldl passoPar acc).1.map Registro.id =
        dbIds ++ (ps.foldl passoPar acc).2.map Oportunidade.id_unico ∧
     ((ps.foldl passoPar acc).1.map Registro.id).Nodup) := by
  induction ps with
  | nil => intro acc dbIds h1 h2; exact ⟨h1, h2⟩
  | cons p ps ih =>
    intro acc dbIds h1 h2
    rw [List.foldl_cons]
    rcases passoPar_cases acc p with hc | ⟨_, hfresh, hc⟩
    · rw [hc]; exact ih acc dbIds h1 h2
    · rw [hc]
      apply ih
      · simp only [List.map_append, h1, List.append_assoc]
        rfl
      · simp only [List.map_append]
        rw [List.nodup_append]
        refine ⟨h2, by simp, ?_⟩
        intro a ha hb
        simp only [registroDe, List.map_cons, List.map_nil,
          List.mem_singleton] at hb
        rw [hb] at ha
        exact hfresh ha

/-- Claim C2: within one pass, each identity is inserted and notified
at most once — starting from a duplicate-free store, the final store
ids and the batch ids are duplicate-free, and every batch entry is
absent from the initial store. -/
theorem claim_C2 :
    ∀ (grupos : List (Fonte × List Candidato)) (db : List Registro),
      (db.map Registro.id).Nodup →
      (((processarTodos grupos db).1.map Registro.id).Nodup ∧
       ((processarTodos grupos db).2.map Oportunidade.id_unico).Nodup ∧
       ∀ o ∈ (processarTodos grupos db).2,
         o.id_unico ∉ db.map Registro.id) := by
  intro grupos db hdb
  rw [processarTodos_eq_pares]
  obtain ⟨h1, h2⟩ := foldl_passoPar_lockstep (pares grupos) (db, [])
    (db.map Registro.id) (by simp) hdb
  rw [h1] at h2
  obtain ⟨hl, hr, hdisj⟩ := List.nodup_append.mp h2
  refine ⟨by rw [h1]; exact h2, hr, ?_⟩
  intro o ho hmem
  exact hdisj hmem (List.mem_map.mpr ⟨o, ho, rfl⟩)

/-- Witness for C2 at a concrete run: two items of the same source
computing the same identity (titles differing only in punctuation). -/
theorem claim_C2_witness :
    ((processarTodos
        [(⟨"F", "u", "c"⟩, [⟨some "a", some "1"⟩, ⟨some "a!", some "1"⟩])]
        []).1.map Registro.id).Nodup ∧
    ((processarTodos
        [(⟨"F", "u", "c"⟩, [⟨some "a", some "1"⟩, ⟨some "a!", some "1"⟩])]
        []).2.map Oportunidade.id_unico).Nodup :=
  ⟨(claim_C2 [(⟨"F", "u", "c"⟩, [⟨some "a", some "1"⟩, ⟨some "a!", some "1"⟩])]
      [] (by decide)).1,
   (claim_C2 [(⟨"F", "u", "c"⟩, [⟨some "a", some "1"⟩, ⟨some "a!", some "1"⟩])]
      [] (by decide)).2.1⟩

/-- Counterexample to claim C1 as stated: a list with two valid
candidates of identical identity yields only one new record on run 1,
not one per valid candidate. -/
theorem claim_C1_counterexample :
    (processarTodos
        [(⟨"F", "u", "c"⟩, [⟨some "a", none⟩, ⟨some "a", none⟩])]
        []).2.length = 1 ∧
    (itensValidos
        [(⟨"F", "u", "c"⟩, [⟨some "a", none⟩, ⟨some "a", none⟩])]).length = 2 := by
  constructor <;> rfl

/-- Claim C1 (amended): starting from the empty store, run 1 inserts a
row and emits a new record for every valid candidate provided their
identities are pairwise distinct, and run 2 over the store produced by
run 1 emits zero new records for every candidate list. -/
theorem claim_C1_amended :
    (∀ grupos : List (Fonte × List Candidato),
      ((itensValidos grupos).map (fun p => idDoItem p.1 p.2)).Nodup →
      processarTodos grupos [] =
        ((itensValidos grupos).map (fun p => registroDe p.1 p.2),
         (itensValidos grupos).map (fun p => oportunidadeDe p.1 p.2))) ∧
    (∀ grupos : List (Fonte × List Candidato),
      (processarTodos grupos ((processarTodos grupos []).1)).2 = []) := by
  constructor
  · intro grupos hnd
    rw [processarTodos_eq_pares]
    rw [foldl_passoPar_fresh (pares grupos) ([], []) hnd (by simp)]
    rfl
  · intro grupos
    rw [processarTodos_eq_pares]
    rw [foldl_passoPar_noop]
    intro p hp hv
    show idDoItem p.1 p.2 ∈ ((processarTodos grupos []).1).map Registro.id
    rw [processarTodos_eq_pares]
    exact foldl_passoPar_ids_in_store (pares grupos) ([], []) p hp hv

/-- Witness for C1 (amended) at scenario A: one valid candidate, run 1
emits it, run 2 emits nothing. -/
theorem claim_C1_witness :
    processarTodos [(⟨"IPEA", "u", "c"⟩, [⟨some "Chamada 56/2025", some "x"⟩])] [] =
      ((itensValidos [(⟨"IPEA", "u", "c"⟩, [⟨some "Chamada 56/2025", some "x"⟩])]).map
          (fun p => registroDe p.1 p.2),
       (itensValidos [(⟨"IPEA", "u", "c"⟩, [⟨some "Chamada 56/2025", some "x"⟩])]).map
          (fun p => oportunidadeDe p.1 p.2)) ∧
    (processarTodos [(⟨"IPEA", "u", "c"⟩, [⟨some "Chamada 56/2025", some "x"⟩])]
        ((processarTodos [(⟨"IPEA", "u", "c"⟩,
            [⟨some "Chamada 56/2025", some "x"⟩])] []).1)).2 = [] :=
  ⟨claim_C1_amended.1 [(⟨"IPEA", "u", "c"⟩, [⟨some "Chamada 56/2025", some "x"⟩])]
      (by decide),
   claim_C1_amended.2 [(⟨"IPEA", "u", "c"⟩, [⟨some "Chamada 56/2025", some "x"⟩])]⟩

/-- Claim C7: a candidate with an absent or empty title is silently
skipped — deleting it from the list changes neither the store nor the
batch, and the run never fails. -/
theorem claim_C7 :
    ∀ (g₁ g₂ : List (Fonte × List Candidato)) (f : Fonte)
      (itens₁ itens₂ : List Candidato) (c : Candidato) (db : List Registro),
      jsFalsyStr c.titulo = true →
      processarTodos (g₁ ++ (f, itens₁ ++ c :: itens₂) :: g₂) db =
        processarTodos (g₁ ++ (f, itens₁ ++ itens₂) :: g₂) db := by
  intro g₁ g₂ f itens₁ itens₂ c db h
  rw [processarTodos_eq_pares, processarTodos_eq_pares]
  simp only [pares, List.flatMap_append, List.flatMap_cons, List.map_append,
    List.map_cons, List.foldl_append, List.foldl_cons, passoPar]
  rw [passo_falsy f _ c h]

/-- Witness for C7 at scenario B: a candidate missing the title field
is dropped with no effect. -/
theorem claim_C7_witness :
    processarTodos [(⟨"F", "u", "c"⟩, [⟨some "a", none⟩, ⟨none, some "1"⟩])] [] =
      processarTodos [(⟨"F", "u", "c"⟩, [⟨some "a", none⟩])] [] :=
  claim_C7 [] [] ⟨"F", "u", "c"⟩ [⟨some "a", none⟩] [] ⟨none, some "1"⟩ [] (by decide)

/-- Claim C9: the composer and the outbound channel are never invoked
on an empty batch, and a message is handed to the channel only when at
least one new record was collected. -/
theorem claim_C9 :
    ∀ (env : EmailEnv) (novas : List Oportunidade),
      (novas = [] → mainEnvio env novas = none) ∧
      (mainEnvio env novas ≠ none → novas ≠ []) := by
  intro env novas
  constructor
  · intro h
    subst h
    rfl
  · intro h hn
    subst hn
    exact h rfl

/-- Witness for C9: no message on the empty batch, and a configured
environment with one record does produce a message. -/
theorem claim_C9_witness :
    mainEnvio ⟨none, none⟩ [] = none ∧
    ([⟨"i", "t", none, "F", "u", "c"⟩] : List Oportunidade) ≠ [] :=
  ⟨(claim_C9 ⟨none, none⟩ []).1 rfl,
   (claim_C9 ⟨some "u", some "t"⟩ [⟨"i", "t", none, "F", "u", "c"⟩]).2
     (by simp [mainEnvio, enviarEmailResumo, jsFalsyStr])⟩

/-! ## Claims C5, C6: extraction -/


theorem removeAllAux_cons (pat : List Char) (c : Char) (rest : List Char) :
    removeAllAux pat 0 (c :: rest) =
      if pat ≠ [] ∧ pat.isPrefixOf (c :: rest) then
        removeAllAux pat (pat.length - 1) rest
      else c :: removeAllAux pat 0 rest := rfl

theorem isPrefixOf_self_append (pat r : List Char) :
    pat.isPrefixOf (pat ++ r) = true := by
  induction pat with
  | nil => simp [List.isPrefixOf]
  | cons c cs ih => simpa [List.isPrefixOf] using ih

theorem removeAllAux_skip (pat : List Char) (y r : List Char) :
    removeAllAux pat y.length (y ++ r) = removeAllAux pat 0 r := by
  induction y with
  | nil => rfl
  | cons c y ih => simpa [removeAllAux] using ih

/-- Characters that cannot start the pattern pass through untouched. -/
theorem removeAllAux_pass (pat : List Char) (h₀ : Char) (x r : List Char)
    (hh : pat.head? = some h₀) (hx : ∀ c ∈ x, c ≠ h₀) :
    removeAllAux pat 0 (x ++ r) = x ++ removeAllAux pat 0 r := by
  induction x with
  | nil => rfl
  | cons c x ih =>
    have hc : c ≠ h₀ := hx c (by simp)
    have hnp : pat.isPrefixOf (c :: (x ++ r)) = false := by
      match pat, hh with
      | h₀ :: pt, rfl =>
        simp [List.isPrefixOf]
        intro he
        exact absurd he.symm hc
    rw [List.cons_append, removeAllAux_cons, if_neg (by simp [hnp]),
      ih (fun c hc2 => hx c (by simp [hc2]))]
    rfl

/-- Removal of a match at the head of the list. -/
theorem removeAllAux_match (pat r : List Char) (hne : pat ≠ []) :
    removeAllAux pat 0 (pat ++ r) = removeAllAux pat 0 r := by
  match pat, hne with
  | c :: cs, _ =>
    rw [List.cons_append, removeAllAux_cons,
      if_pos ⟨by simp, by simpa using isPrefixOf_self_append (c :: cs) r⟩]
    have hl : (c :: cs).length - 1 = cs.length := by simp
    rw [hl, ← removeAllAux_skip (c :: cs) cs r]

/-- A list without the pattern head character is untouched. -/
theorem removeAllAux_id (pat : List Char) (h₀ : Char) (l : List Char)
    (hh : pat.head? = some h₀) (hl : ∀ c ∈ l, c ≠ h₀) :
    removeAllAux pat 0 l = l := by
  have h := removeAllAux_pass pat h₀ l [] hh hl
  have h0 : removeAllAux pat 0 ([] : List Char) = [] := rfl
  rw [h0] at h
  simpa using h

theorem firstIdx_none_iff (c : Char) (l : List Char) :
    firstIdx c l = none ↔ c ∉ l := by
  induction l with
  | nil => simp [firstIdx]
  | cons x xs ih =>
    by_cases hx : x = c
    · simp [firstIdx, hx]
    · simp [firstIdx, hx, ih, Ne.symm hx]

theorem lastIdx_none_iff (c : Char) (l : List Char) :
    lastIdx c l = none ↔ c ∉ l := by
  induction l with
  | nil => simp [lastIdx]
  | cons x xs ih =>
    rw [lastIdx]
    by_cases hx : x = c
    · cases h : lastIdx c xs <;> simp [h, hx] <;> simp [h] at ih <;> simp [ih]
    · cases h : lastIdx c xs <;> simp [h, hx, Ne.symm hx] <;>
        simp [h] at ih <;> simp [ih]

theorem firstIdx_append_left (c : Char) (p r : List Char) (hp : c ∉ p) :
    firstIdx c (p ++ r) = (firstIdx c r).map (· + p.length) := by
  induction p with
  | nil => simp
  | cons x xs ih =>
    have hx : x ≠ c := fun h => hp (h ▸ List.mem_cons_self x xs)
    rw [List.cons_append, firstIdx, if_neg hx,
      ih (fun h => hp (List.mem_cons_of_mem x h))]
    cases firstIdx c r with
    | none => simp
    | some i =>
      simp
      omega

theorem firstIdx_append_right (c : Char) (m q : List Char) (hq : c ∉ q) :
    firstIdx c (m ++ q) = firstIdx c m := by
  induction m with
  | nil => simpa [firstIdx] using (firstIdx_none_iff c q).mpr hq
  | cons x xs ih =>
    rw [List.cons_append, firstIdx, firstIdx, ih]

theorem lastIdx_append_right (c : Char) (m q : List Char) (hq : c ∉ q) :
    lastIdx c (m ++ q) = lastIdx c m := by
  induction m with
  | nil => simpa [lastIdx] using (lastIdx_none_iff c q).mpr hq
  | cons x xs ih =>
    rw [List.cons_append, lastIdx, lastIdx, ih]

theorem lastIdx_append_left (c : Char) (p r : List Char) (hp : c ∉ p) :
    lastIdx c (p ++ r) = (lastIdx c r).map (· + p.length) := by
  induction p with
  | nil => simp
  | cons x xs ih =>
    have hx : x ≠ c := fun h => hp (h ▸ List.mem_cons_self x xs)
    rw [List.cons_append, lastIdx,
      ih (fun h => hp (List.mem_cons_of_mem x h))]
    cases lastIdx c r with
    | none => simp [hx]
    | some i =>
      simp
      omega

theorem firstIdx_lt_length (c : Char) (l : List Char) (i : Nat)
    (h : firstIdx c l = some i) : i < l.length := by
  induction l generalizing i with
  | nil => simp [firstIdx] at h
  | cons x xs ih =>
    rw [firstIdx] at h
    by_cases hx : x = c
    · simp [hx] at h
      simp
      omega
    · simp [hx] at h
      cases hf : firstIdx c xs with
      | none => rw [hf] at h; simp at h
      | some k =>
        rw [hf] at h
        simp at h
        have := ih k hf
        simp
        omega

theorem lastIdx_lt_length (c : Char) (l : List Char) (i : Nat)
    (h : lastIdx c l = some i) : i < l.length := by
  induction l generalizing i with
  | nil => simp [lastIdx] at h
  | cons x xs ih =>
    rw [lastIdx] at h
    cases hf : lastIdx c xs with
    | none =>
      rw [hf] at h
      by_cases hx : x = c <;> simp [hx] at h <;> simp <;> omega
    | some k =>
      rw [hf] at h
      simp at h
      have := ih k hf
      simp
      omega



theorem drop_append_shift (p r : List Char) (n : Nat) :
    (p ++ r).drop (p.length + n) = r.drop n := by
  induction p with
  | nil => simp
  | cons x xs ih => simpa [Nat.succ_add] using ih

/-- Shifting a fully-in-bounds substring past a prefix and before a
suffix extracts the same characters. -/
theorem jsSubstring_shift (p m q : List Char) (a b : Nat)
    (ha : a ≤ m.length) (hb : b ≤ m.length) :
    jsSubstring (p ++ m ++ q) (a + p.length) (b + p.length) =
      jsSubstring m a b := by
  unfold jsSubstring
  simp only [List.length_append]
  have h1 : min (a + p.length) (p.length + m.length + q.length) = a + p.length := by
    omega
  have h2 : min (b + p.length) (p.length + m.length + q.length) = b + p.length := by
    omega
  have h3 : min a m.length = a := by omega
  have h4 : min b m.length = b := by omega
  rw [h1, h2, h3, h4]
  have h5 : min (a + p.length) (b + p.length) = min a b + p.length := by omega
  have h6 : max (a + p.length) (b + p.length) = max a b + p.length := by omega
  rw [h5, h6]
  have h7 : (p ++ m ++ q).drop (min a b + p.length) = (m ++ q).drop (min a b) := by
    rw [List.append_assoc, Nat.add_comm, drop_append_shift]
  rw [h7]
  have h8 : (m ++ q).drop (min a b) = m.drop (min a b) ++ q :=
    List.drop_append_of_le_length (by omega)
  rw [h8]
  have h9 : max a b + p.length - (min a b + p.length) = max a b - min a b := by
    omega
  rw [h9]
  exact List.take_append_of_le_length (by simp; omega)

/-- The slice between the first `[` and the last `]` ignores a
bracket-free prefix and a bracket-free suffix. -/
theorem fatiaDe_wrap (p m q : List Char)
    (hp1 : '[' ∉ p) (hp2 : ']' ∉ p) (hq1 : '[' ∉ q) (hq2 : ']' ∉ q) :
    fatiaDe (p ++ m ++ q) = fatiaDe m := by
  unfold fatiaDe
  rw [List.append_assoc]
  rw [firstIdx_append_left '[' p (m ++ q) hp1,
    firstIdx_append_right '[' m q hq1,
    lastIdx_append_left ']' p (m ++ q) hp2,
    lastIdx_append_right ']' m q hq2]
  cases h1 : firstIdx '[' m with
  | none => simp
  | some i =>
    cases h2 : lastIdx ']' m with
    | none => simp
    | some j =>
      simp only [Option.map]
      have hi := firstIdx_lt_length '[' m i h1
      have hj := lastIdx_lt_length ']' m j h2
      have harr : j + p.length + 1 = (j + 1) + p.length := by omega
      rw [harr, ← List.append_assoc]
      rw [jsSubstring_shift p m q i (j + 1) (by omega) (by omega)]

/-- Every character trimmed by `trim` is neither `[` nor `]`. -/
theorem jsWsTrim_not_bracket (c : Char) (h : jsWsTrim c = true) :
    c ≠ '[' ∧ c ≠ ']' := by
  constructor <;> rintro rfl <;> exact absurd h (by decide)

theorem fatiaDe_trimLeft (l : List Char) :
    fatiaDe (trimLeft l) = fatiaDe l := by
  unfold trimLeft
  conv_rhs => rw [← List.takeWhile_append_dropWhile (p := jsWsTrim) (l := l)]
  have h := fatiaDe_wrap (l.takeWhile jsWsTrim) (l.dropWhile jsWsTrim) []
    (fun hc => ((jsWsTrim_not_bracket _ (List.mem_takeWhile_imp hc)).1 rfl))
    (fun hc => ((jsWsTrim_not_bracket _ (List.mem_takeWhile_imp hc)).2 rfl))
    (by simp) (by simp)
  rw [List.append_nil] at h
  exact h.symm

theorem fatiaDe_trimRight (l : List Char) :
    fatiaDe (trimRight l) = fatiaDe l := by
  have hsplit : l = trimRight l ++ (l.reverse.takeWhile jsWsTrim).reverse := by
    unfold trimRight
    rw [← List.reverse_append, List.takeWhile_append_dropWhile, List.reverse_reverse]
  conv_rhs => rw [hsplit]
  have h := fatiaDe_wrap [] (trimRight l) ((l.reverse.takeWhile jsWsTrim).reverse)
    (by simp) (by simp)
    (fun hc => ((jsWsTrim_not_bracket _
      (List.mem_takeWhile_imp (List.mem_reverse.mp hc))).1 rfl))
    (fun hc => ((jsWsTrim_not_bracket _
      (List.mem_takeWhile_imp (List.mem_reverse.mp hc))).2 rfl))
  rw [List.nil_append] at h
  exact h.symm

theorem fatiaDe_jsTrim (l : List Char) : fatiaDe (jsTrim l) = fatiaDe l := by
  unfold jsTrim
  rw [fatiaDe_trimRight, fatiaDe_trimLeft]



/-- A backtick-free text passes through the fence stripping untouched. -/
theorem limpoDe_no_tick (s : String) (h : '`' ∉ s.data) :
    limpoDe s = jsTrim s.data := by
  unfold limpoDe removeAll
  rw [removeAllAux_id "```json".data '`' s.data rfl (fun c hc he => h (he ▸ hc)),
    removeAllAux_id "```".data '`' s.data rfl (fun c hc he => h (he ▸ hc))]

/-- Cleaning a fenced, prose-wrapped payload: both fences are removed
and everything else is kept (before the final trim). -/
theorem limpoDe_wrap (p₁ A p₂ : String)
    (hA : '`' ∉ A.data) (h1 : '`' ∉ p₁.data) (h2 : '`' ∉ p₂.data) :
    limpoDe (p₁ ++ "```json\n" ++ A ++ "\n```\n" ++ p₂) =
      jsTrim (p₁.data ++ '\n' :: (A.data ++ '\n' :: '\n' :: p₂.data)) := by
  have hx1 : ∀ c ∈ p₁.data, c ≠ '`' := fun c hc he => h1 (he ▸ hc)
  have hx2 : ∀ c ∈ p₂.data, c ≠ '`' := fun c hc he => h2 (he ▸ hc)
  have hxA : ∀ c ∈ '\n' :: A.data, c ≠ '`' := by
    intro c hc
    rcases List.mem_cons.mp hc with rfl | hc
    · decide
    · exact fun he => hA (he ▸ hc)
  have hxNl : ∀ c ∈ ['\n'], c ≠ '`' := by
    intro c hc
    simp at hc
    subst hc
    decide
  have hxTail : ∀ c ∈ '\n' :: p₂.data, c ≠ '`' := by
    intro c hc
    rcases List.mem_cons.mp hc with rfl | hc
    · decide
    · exact fun he => h2 (he ▸ hc)
  have hdata : (p₁ ++ "```json\n" ++ A ++ "\n```\n" ++ p₂).data =
      p₁.data ++ ('`' :: '`' :: '`' :: 'j' :: 's' :: 'o' :: 'n' :: '\n' ::
        (A.data ++ ('\n' :: '`' :: '`' :: '`' :: '\n' :: p₂.data))) := by
    simp only [String.data_append, List.append_assoc]
    rfl
  unfold limpoDe removeAll
  rw [hdata]
  have hticksJ : removeAllAux "```json".data 0
      ('`' :: '`' :: '`' :: '\n' :: p₂.data) =
      '`' :: '`' :: '`' :: '\n' :: p₂.data := by
    rw [removeAllAux_cons, if_neg (by simp [List.isPrefixOf])]
    rw [removeAllAux_cons, if_neg (by simp [List.isPrefixOf])]
    rw [removeAllAux_cons, if_neg (by simp [List.isPrefixOf])]
    rw [removeAllAux_id "```json".data '`' ('\n' :: p₂.data) rfl hxTail]
  have hstep1 : removeAllAux "```json".data 0
      (p₁.data ++ ('`' :: '`' :: '`' :: 'j' :: 's' :: 'o' :: 'n' :: '\n' ::
        (A.data ++ ('\n' :: '`' :: '`' :: '`' :: '\n' :: p₂.data)))) =
      p₁.data ++ (('\n' :: A.data) ++ ('\n' ::
        ('`' :: '`' :: '`' :: '\n' :: p₂.data))) := by
    rw [removeAllAux_pass "```json".data '`' p₁.data _ rfl hx1]
    have hm : removeAllAux "```json".data 0
        ('`' :: '`' :: '`' :: 'j' :: 's' :: 'o' :: 'n' :: '\n' ::
          (A.data ++ ('\n' :: '`' :: '`' :: '`' :: '\n' :: p₂.data))) =
        removeAllAux "```json".data 0
          ('\n' :: (A.data ++ ('\n' :: '`' :: '`' :: '`' :: '\n' :: p₂.data))) :=
      removeAllAux_match "```json".data _ (by simp)
    rw [hm]
    have hpA : removeAllAux "```json".data 0
        ('\n' :: (A.data ++ ('\n' :: '`' :: '`' :: '`' :: '\n' :: p₂.data))) =
        ('\n' :: A.data) ++ removeAllAux "```json".data 0
          ('\n' :: '`' :: '`' :: '`' :: '\n' :: p₂.data) :=
      removeAllAux_pass "```json".data '`' ('\n' :: A.data) _ rfl hxA
    rw [hpA]
    have hpN : removeAllAux "```json".data 0
        ('\n' :: '`' :: '`' :: '`' :: '\n' :: p₂.data) =
        ['\n'] ++ removeAllAux "```json".data 0
          ('`' :: '`' :: '`' :: '\n' :: p₂.data) :=
      removeAllAux_pass "```json".data '`' ['\n'] _ rfl hxNl
    rw [hpN, hticksJ]
    rfl
  rw [hstep1]
  have hstep2 : removeAllAux "```".data 0
      (p₁.data ++ (('\n' :: A.data) ++ ('\n' ::
        ('`' :: '`' :: '`' :: '\n' :: p₂.data)))) =
      p₁.data ++ (('\n' :: A.data) ++ ('\n' :: '\n' :: p₂.data)) := by
    rw [removeAllAux_pass "```".data '`' p₁.data _ rfl hx1]
    rw [removeAllAux_pass "```".data '`' ('\n' :: A.data) _ rfl hxA]
    have hpN : removeAllAux "```".data 0
        ('\n' :: '`' :: '`' :: '`' :: '\n' :: p₂.data) =
        ['\n'] ++ removeAllAux "```".data 0
          ('`' :: '`' :: '`' :: '\n' :: p₂.data) :=
      removeAllAux_pass "```".data '`' ['\n'] _ rfl hxNl
    rw [hpN]
    have hmt : removeAllAux "```".data 0
        ('`' :: '`' :: '`' :: '\n' :: p₂.data) =
        removeAllAux "```".data 0 ('\n' :: p₂.data) :=
      removeAllAux_match "```".data _ (by simp)
    rw [hmt, removeAllAux_id "```".data '`' ('\n' :: p₂.data) rfl hxTail]
    rfl
  rw [hstep2]
  rfl

/-- Claim C5: extraction is total with graceful degradation — when the
cleaned text lacks `[` or `]` the result is the empty array, and when
the bracket slice fails strict JSON parsing the result is the empty
array rather than any partial parse. -/
theorem claim_C5 :
    ∀ (text : String),
      ((firstIdx '[' (limpoDe text) = none ∨
        lastIdx ']' (limpoDe text) = none) →
        extrairJson text = Json.arr []) ∧
      (∀ fatia : List Char, fatiaDe (limpoDe text) = some fatia →
        jsonParse (String.mk fatia) = none →
        extrairJson text = Json.arr []) := by
  intro text
  constructor
  · intro h
    have hn : fatiaDe (limpoDe text) = none := by
      unfold fatiaDe
      rcases h with h | h
      · cases hl : lastIdx ']' (limpoDe text) <;> rw [h]
      · cases hf : firstIdx '[' (limpoDe text) <;> rw [h]
    unfold extrairJson
    rw [hn]
  · intro fatia hf hp
    unfold extrairJson
    rw [hf]
    show (match jsonParse (String.mk fatia) with
      | some v => v
      | none => Json.arr []) = Json.arr []
    rw [hp]

/-- Witness for C5: bracket-free text, and a slice that is not valid
JSON (a trailing comma). -/
theorem claim_C5_witness :
    extrairJson "sem estrutura" = Json.arr [] ∧
    extrairJson "[1,]" = Json.arr [] :=
  ⟨(claim_C5 "sem estrutura").1 (Or.inl rfl),
   (claim_C5 "[1,]").2 "[1,]".data rfl rfl⟩

/-- Counterexample to claim C6 as stated: leading prose containing
brackets shifts the slice, so the wrapped text extracts to the empty
array while the bare array extracts to its records. -/
theorem claim_C6_counterexample :
    extrairJson "Resultados [nota] ```json\n[1]\n```\n" = Json.arr [] ∧
    extrairJson "[1]" = Json.arr [Json.num "1"] ∧
    Json.arr [] ≠ Json.arr [Json.num "1"] := by
  refine ⟨rfl, rfl, ?_⟩
  intro h
  injection h with h2
  cases h2

/-- Claim C6 (amended): wrapping a backtick-free payload in
triple-backtick fences with prose that contains no backtick and no
square bracket extracts the same value as the bare payload. -/
theorem claim_C6_amended :
    ∀ (A p₁ p₂ : String),
      '`' ∉ A.data → '`' ∉ p₁.data → '`' ∉ p₂.data →
      '[' ∉ p₁.data → ']' ∉ p₁.data → '[' ∉ p₂.data → ']' ∉ p₂.data →
      extrairJson (p₁ ++ "```json\n" ++ A ++ "\n```\n" ++ p₂) =
        extrairJson A := by
  intro A p₁ p₂ hA h1 h2 hb1 hb2 hb3 hb4
  have key : fatiaDe (limpoDe (p₁ ++ "```json\n" ++ A ++ "\n```\n" ++ p₂)) =
      fatiaDe (limpoDe A) := by
    rw [limpoDe_wrap p₁ A p₂ hA h1 h2, fatiaDe_jsTrim,
      limpoDe_no_tick A hA, fatiaDe_jsTrim]
    have hsh : p₁.data ++ '\n' :: (A.data ++ '\n' :: '\n' :: p₂.data) =
        (p₁.data ++ ['\n']) ++ A.data ++ ('\n' :: '\n' :: p₂.data) := by
      simp [List.append_assoc]
    rw [hsh]
    apply fatiaDe_wrap
    · simp only [List.mem_append, List.mem_singleton]
      rintro (hc | hc)
      · exact hb1 hc
      · cases hc
    · simp only [List.mem_append, List.mem_singleton]
      rintro (hc | hc)
      · exact hb2 hc
      · cases hc
    · intro hc
      rcases List.mem_cons.mp hc with hc | hc
      · cases hc
      · rcases List.mem_cons.mp hc with hc | hc
        · cases hc
        · exact hb3 hc
    · intro hc
      rcases List.mem_cons.mp hc with hc | hc
      · cases hc
      · rcases List.mem_cons.mp hc with hc | hc
        · cases hc
        · exact hb4 hc
  unfold extrairJson
  rw [key]

/-- Witness for C6 (amended) at a concrete fenced response. -/
theorem claim_C6_witness :
    extrairJson ("Aqui: " ++ "```json\n" ++ "[1]" ++ "\n```\n" ++ " obrigado") =
      extrairJson "[1]" :=
  claim_C6_amended "[1]" "Aqui: " " obrigado" (by decide) (by decide) (by decide)
    (by decide) (by decide) (by decide) (by decide)

end AlertMonitor
